import Mathlib

/-!
Verification of the cadence-workflow-linter call-graph / reachability /
package-resolution engine against its specification.

The Go sources are embedded shallowly:

* Go strings are modelled as Lean `String`s; the `strings` / `path/filepath`
  standard-library functions the sources use (`TrimSpace`, `Split`,
  `Contains`, `HasPrefix`, `ReplaceAll`, `Join`, `filepath.Dir`,
  `filepath.Rel`) are re-implemented below as structural recursions over
  `List Char`, following Go's documented semantics for ASCII text and
  cleaned, "/"-separated paths (the only inputs the analyzer feeds them).
  `filepath.Separator` is `'/'` (the analyzer targets a Unix filesystem).
* Go maps used as sets (`map[string]bool`) are modelled as `List String`
  with `List.contains` membership; a map's iteration order is the list
  order (Go's iteration order is unspecified, so theorems that depend on
  it quantify over the order).
* `map[string][]string` is modelled as an association list
  `List (String × List String)` with `graphLookup`; a missing key yields
  `[]`, exactly like a Go map read of a missing key.
* The recursive traversals of `workflow_registry.go` are given an explicit
  fuel argument; termination of the Go originals is expressed by theorems
  showing the result is independent of the fuel once it exceeds a bound
  computed from the registry.
-/

namespace WfLint

/-! ### Go `strings` and `path/filepath` helpers -/

/-- Whitespace test used by Go `strings.TrimSpace`, i.e. Go's
`unicode.IsSpace`: the Unicode White_Space property.  The code points
are, in order: TAB, LF, VT, FF, CR, SPACE, NEL, NBSP, OGHAM SPACE MARK,
EN QUAD through HAIR SPACE (U+2000–U+200A), LINE SEPARATOR, PARAGRAPH
SEPARATOR, NARROW NO-BREAK SPACE, MEDIUM MATHEMATICAL SPACE, and
IDEOGRAPHIC SPACE. -/
def isSpaceCh (c : Char) : Bool :=
  let n := c.toNat
  n == 0x09 || n == 0x0A || n == 0x0B || n == 0x0C || n == 0x0D || n == 0x20 ||
  n == 0x85 || n == 0xA0 || n == 0x1680 ||
  n == 0x2000 || n == 0x2001 || n == 0x2002 || n == 0x2003 || n == 0x2004 ||
  n == 0x2005 || n == 0x2006 || n == 0x2007 || n == 0x2008 || n == 0x2009 ||
  n == 0x200A || n == 0x2028 || n == 0x2029 || n == 0x202F || n == 0x205F ||
  n == 0x3000

/-- Drops leading whitespace characters. -/
def chDropLeading : List Char → List Char
  | [] => []
  | c :: cs => if isSpaceCh c then chDropLeading cs else c :: cs

/-- Go `strings.TrimSpace` on the character list: strip leading and
trailing whitespace. -/
def chTrim (l : List Char) : List Char :=
  ((chDropLeading l).reverse |> chDropLeading).reverse

/-- Go `strings.TrimSpace`. -/
def strTrimSpace (s : String) : String := String.mk (chTrim s.data)

/-- Prefix test on character lists: `listHasPre p s` is true when `p` is a
leading segment of `s`. -/
def listHasPre : List Char → List Char → Bool
  | [], _ => true
  | _ :: _, [] => false
  | p :: ps, c :: cs => p == c && listHasPre ps cs

/-- Go `strings.HasPrefix s p`. -/
def strHasPre (s p : String) : Bool := listHasPre p.data s.data

/-- Substring test on character lists, matching Go `strings.Contains`. -/
def listContainsSub (pat : List Char) : List Char → Bool
  | [] => pat.isEmpty
  | c :: cs => listHasPre pat (c :: cs) || listContainsSub pat cs

/-- Go `strings.Contains s pat`. -/
def strContains (s pat : String) : Bool := listContainsSub pat.data s.data

/-- Go `strings.Split` for a one-character separator: splits at every
occurrence, keeping empty fields. -/
def chSplit (sep : Char) : List Char → List (List Char)
  | [] => [[]]
  | c :: cs =>
    let r := chSplit sep cs
    if c == sep then [] :: r
    else
      match r with
      | h :: t => (c :: h) :: t
      | [] => [[c]]

/-- Go `strings.Split s (String.singleton sep)`. -/
def strSplitSep (s : String) (sep : Char) : List String :=
  (chSplit sep s.data).map (fun l => String.mk l)

/-- Go `strings.Join` with a one-character separator. -/
def chIntercalate (sep : Char) : List (List Char) → List Char
  | [] => []
  | [l] => l
  | l :: ls => l ++ sep :: chIntercalate sep ls

/-- Go `strings.Join parts (String.singleton sep)`. -/
def strJoinSep (parts : List String) (sep : Char) : String :=
  String.mk (chIntercalate sep (parts.map String.data))

/-- Go `strings.ReplaceAll s (String.singleton old) new` for a
one-character pattern. -/
def chReplaceAllCh (old : Char) (new : List Char) : List Char → List Char
  | [] => []
  | c :: cs =>
    if c == old then new ++ chReplaceAllCh old new cs
    else c :: chReplaceAllCh old new cs

/-- Go `strings.ReplaceAll s (String.singleton old) new`. -/
def strReplaceAllCh (s : String) (old : Char) (new : String) : String :=
  String.mk (chReplaceAllCh old new.data s.data)

/-- Go `filepath.Dir` for cleaned "/"-separated paths: everything before
the final separator; `"."` when there is no separator, `"/"` for a file
directly under the root. -/
def filepathDir (p : String) : String :=
  match (strSplitSep p '/').dropLast with
  | [] => "."
  | [""] => "/"
  | ps => strJoinSep ps '/'

/-- Segment list of a cleaned path: `"."` has no segments. -/
def pathSegs (p : String) : List String :=
  if p == "." then [] else strSplitSep p '/'

/-- Relative segments from `base` segments to `targ` segments: strip the
common leading segments, then climb with `".."` for what remains of
`base` and descend into what remains of `targ`. -/
def relSegs : List String → List String → List String
  | [], ts => ts
  | bs, [] => List.replicate bs.length ".."
  | b :: bs, t :: ts =>
    if b == t then relSegs bs ts
    else List.replicate (bs.length + 1) ".." ++ (t :: ts)

/-- Go `filepath.Rel base targ` for cleaned "/"-separated paths: fails
(like Go's error return) when exactly one of the two paths is rooted,
otherwise produces the lexical relative path, `"."` when they are equal. -/
def filepathRel (base targ : String) : Option String :=
  if strHasPre base "/" != strHasPre targ "/" then none
  else
    match relSegs (pathSegs base) (pathSegs targ) with
    | [] => some "."
    | segs => some (strJoinSep segs '/')

/-! ### `analyzer/registry` data model (workflow_registry.go, part_008) -/

/-- Edge from callgraph_builder.go: `(caller, callee)` canonical names. -/
structure Edge where
  Caller : String
  Callee : String
deriving DecidableEq, Repr

/-- WorkflowRegistry from workflow_registry.go.  The two Go
`map[string]bool` sets become lists whose order models the map's
iteration order; `CallGraph` (`map[string][]string`) becomes an
association list. -/
structure WorkflowRegistry where
  WorkflowFuncs : List String
  ActivityFuncs : List String
  CallGraph : List (String × List String)
deriving DecidableEq, Repr

/-- NewWorkflowRegistry: all three containers empty. -/
def NewWorkflowRegistry : WorkflowRegistry := ⟨[], [], []⟩

/-- Read of a Go `map[string][]string`: the stored slice, or the empty
slice for a missing key. -/
def graphLookup (g : List (String × List String)) (k : String) : List String :=
  match g.find? (fun e => e.1 == k) with
  | some e => e.2
  | none => []

/-- canonical from callgraph_builder.go (part_011): trim the package or
the import path, substitute `"local"` for an empty one, and join with
the function name by a dot. -/
def canonical (pkgOrImportPath funcName : String) : String :=
  let p := strTrimSpace pkgOrImportPath
  let p := if p == "" then "local" else p
  p ++ "." ++ funcName

/-- Inserts a key into a Go `map[string]bool` set: a no-op when the key
is present. -/
def setInsert (s : List String) (k : String) : List String :=
  if s.contains k then s else s ++ [k]

/-- MarkWorkflow from workflow_registry.go. -/
def MarkWorkflow (wr : WorkflowRegistry) (pkgPath funcName : String) : WorkflowRegistry :=
  { wr with WorkflowFuncs := setInsert wr.WorkflowFuncs (canonical pkgPath funcName) }

/-- MarkActivity from workflow_registry.go. -/
def MarkActivity (wr : WorkflowRegistry) (pkgPath funcName : String) : WorkflowRegistry :=
  { wr with ActivityFuncs := setInsert wr.ActivityFuncs (canonical pkgPath funcName) }

/-- Append to a Go `map[string][]string` entry, creating it if absent,
as `wr.CallGraph[e.Caller] = append(wr.CallGraph[e.Caller], e.Callee)`. -/
def graphAppend (g : List (String × List String)) (k v : String) : List (String × List String) :=
  match g with
  | [] => [(k, [v])]
  | e :: rest =>
    if e.1 == k then (e.1, e.2 ++ [v]) :: rest
    else e :: graphAppend rest k v

/-- AddEdges from workflow_registry.go. -/
def AddEdges (wr : WorkflowRegistry) (edges : List Edge) : WorkflowRegistry :=
  { wr with
    CallGraph := edges.foldl (fun g e => graphAppend g e.Caller e.Callee) wr.CallGraph }

/-- isReachableFrom from workflow_registry.go, with an explicit fuel for
the Go recursion.  The body is a line-by-line transcription: bail out
when the *target* is already in `visited` (this is what the Go code
does), mark the target visited, accept when some source has the target
as a direct callee, otherwise recurse with the set of all callees of the
sources as the new sources. -/
def isReachableFrom (wr : WorkflowRegistry) : Nat → String → List String → List String → Bool
  | 0, _, _, _ => false
  | fuel + 1, target, sources, visited =>
    if visited.contains target then false
    else
      let visited := target :: visited
      if sources.any (fun s => (graphLookup wr.CallGraph s).contains target) then true
      else
        let nextLevel := sources.foldl
          (fun acc s => (graphLookup wr.CallGraph s).foldl
            (fun a c => if a.contains c then a else a ++ [c]) acc) []
        if nextLevel.isEmpty then false
        else isReachableFrom wr fuel target nextLevel visited

/-- Fuel that dominates every traversal of the registry: seed count plus
the total number of callee occurrences in the call graph, plus slack. -/
def reachFuel (wr : WorkflowRegistry) : Nat :=
  wr.WorkflowFuncs.length + ((wr.CallGraph.map (fun e => e.2)).flatten).length + 2

/-- IsWorkflowReachable from workflow_registry.go: direct membership in
`WorkflowFuncs`, else `isReachableFrom` seeded with the workflow set and
an empty visited set. -/
def IsWorkflowReachable (wr : WorkflowRegistry) (canonicalFuncName : String) : Bool :=
  if wr.WorkflowFuncs.contains canonicalFuncName then true
  else isReachableFrom wr (reachFuel wr) canonicalFuncName wr.WorkflowFuncs []

/-- collectReachable from workflow_registry.go, fuel-indexed; the pair is
the `(reach, visited)` pair of Go sets threaded through the recursion. -/
def collectReachable (wr : WorkflowRegistry) :
    Nat → String → List String × List String → List String × List String
  | 0, _, st => st
  | fuel + 1, fn, st =>
    if st.2.contains fn then st
    else
      (graphLookup wr.CallGraph fn).foldl
        (fun acc callee =>
          if wr.ActivityFuncs.contains callee then acc
          else collectReachable wr fuel callee acc)
        (st.1 ++ [fn], fn :: st.2)

/-- ReachableFromWorkflows from workflow_registry.go: run collectReachable
from every workflow function, sharing one visited set. -/
def ReachableFromWorkflows (wr : WorkflowRegistry) : List String :=
  (wr.WorkflowFuncs.foldl (fun st wf => collectReachable wr (reachFuel wr) wf st) ([], [])).1

/-- RequireDirective from analyzer/modutils/module_parser.go. -/
structure RequireDirective where
  Path : String
  Version : String
  Indirect : Bool
deriving DecidableEq, Repr

/-- ReplaceDirective from analyzer/modutils/module_parser.go. -/
structure ReplaceDirective where
  OldPath : String
  OldVersion : String
  NewPath : String
  NewVersion : String
deriving DecidableEq, Repr

/-- ModuleInfo from analyzer/modutils/module_parser.go. -/
structure ModuleInfo where
  ModulePath : String
  GoVersion : String
  Requires : List RequireDirective
  Replaces : List ReplaceDirective
  RootDir : String
deriving DecidableEq, Repr

/-- IsInternalPackage from module_parser.go: the module path itself or a
"/"-separated subpackage of it; always false for an empty module path. -/
def IsInternalPackage (m : ModuleInfo) (packagePath : String) : Bool :=
  if m.ModulePath == "" then false
  else packagePath == m.ModulePath || strHasPre packagePath (m.ModulePath ++ "/")

/-- Loop body of IsReplacedPackage from module_parser.go: scan the
replace directives in order and answer with the first whose old path
equals the package path or "/"-prefixes it.  The Go body distinguishes
local-looking new paths but returns the same pair on both branches; the
transcription keeps the redundant conditional. -/
def isReplacedGo (packagePath : String) : List ReplaceDirective → Bool × String
  | [] => (false, "")
  | rep :: rest =>
    if packagePath == rep.OldPath || strHasPre packagePath (rep.OldPath ++ "/") then
      if !(strContains rep.NewPath "/") || strHasPre rep.NewPath "./" || strHasPre rep.NewPath "../" then
        (true, rep.NewPath)
      else
        (true, rep.NewPath)
    else isReplacedGo packagePath rest

/-- IsReplacedPackage from module_parser.go. -/
def IsReplacedPackage (m : ModuleInfo) (packagePath : String) : Bool × String :=
  isReplacedGo packagePath m.Replaces

/-! ### Package path resolution (part_006, `computePackagePath`) -/

/-- PackageResolver from part_006: an optional parsed manifest plus the
base directory of the scan. -/
structure PackageResolver where
  moduleInfo : Option ModuleInfo
  baseDir : String

/-- computePackagePath from part_006.  `nodeName` is the declared package
name of the file's syntax tree (`node.Name`); the file path and all
directory inputs are cleaned "/"-separated paths.  The branch structure
mirrors the source: the testdata heuristic first, then the manifest
(with the `main`-package special case), then the hardcoded fallback. -/
def computePackagePath (pr : PackageResolver) (filePath : String)
    (nodeName : Option String) : String :=
  let pkgName := match nodeName with
    | some n => n
    | none => "local"
  if strContains filePath "testdata" then
    if strContains filePath "/mod/" then
      match filepathRel pr.baseDir (filepathDir filePath) with
      | some rel =>
        let parts := strSplitSep (strReplaceAllCh rel '/' "/") '/'
        if parts.length ≥ 2 && parts.head? == some "mod" then
          "example.com/linttest/" ++ strJoinSep parts.tail '/'
        else "testdata/" ++ pkgName
      | none => "testdata/" ++ pkgName
    else "testdata/" ++ pkgName
  else
    match pr.moduleInfo with
    | some mi =>
      if pkgName == "main" then mi.ModulePath
      else
        match filepathRel mi.RootDir (filepathDir filePath) with
        | some rel =>
          if rel != "." then mi.ModulePath ++ "/" ++ strReplaceAllCh rel '/' "/"
          else mi.ModulePath
        | none => mi.ModulePath
    | none =>
      if pkgName == "main" then "github.com/afony10/cadence-workflow-linter"
      else
        match filepathRel pr.baseDir (filepathDir filePath) with
        | some rel =>
          if rel != "." then
            "github.com/afony10/cadence-workflow-linter/" ++ strReplaceAllCh rel '/' "/"
          else pkgName
        | none => pkgName

/-! ### Two-pass scan driver (part_006) and the legacy single-pass
scanner (scanner.go).

The parser and the per-file analyses are the spec's external
collaborators, so they are parameters: `α` is a parsed syntax tree
(together with its import-alias table), `process` stands for
`wr.ProcessFile node pkgPath importMap`, and `detect` stands for one
pass-2 detector walk returning that file's issues.  An input file is a
path paired with `some` tree, or `none` when `parser.ParseFile` fails. -/

/-- Per-file loop of parseAllAndBuildRegistry: `filepath.Walk` aborts and
propagates as soon as the callback (`addFile`) returns an error, so one
parse failure makes the whole first pass return that error and discard
every accumulated file and registry entry. -/
def parseAllGo {α : Type} (process : WorkflowRegistry → α → WorkflowRegistry) :
    List (String × Option α) → List (String × α) → WorkflowRegistry →
    Except String (List (String × α) × WorkflowRegistry)
  | [], files, wr => .ok (files, wr)
  | (path, none) :: _, _, _ => .error path
  | (path, some node) :: rest, files, wr =>
    parseAllGo process rest (files ++ [(path, node)]) (process wr node)

/-- parseAllAndBuildRegistry from part_006 (first pass). -/
def parseAllAndBuildRegistry {α : Type} (process : WorkflowRegistry → α → WorkflowRegistry)
    (inputs : List (String × Option α)) :
    Except String (List (String × α) × WorkflowRegistry) :=
  parseAllGo process inputs [] NewWorkflowRegistry

/-- runDetectors from part_006 (second pass): concatenate each parsed
file's issues against the completed registry. -/
def runDetectors {α : Type} (detect : WorkflowRegistry → String × α → List String)
    (files : List (String × α)) (wr : WorkflowRegistry) : List String :=
  files.foldl (fun acc pf => acc ++ detect wr pf) []

/-- ScanDirectory from part_006: first pass, then detectors; a first-pass
error is returned as the scan's error. -/
def ScanDirectory {α : Type} (process : WorkflowRegistry → α → WorkflowRegistry)
    (detect : WorkflowRegistry → String × α → List String)
    (inputs : List (String × Option α)) : Except String (List String) :=
  match parseAllAndBuildRegistry process inputs with
  | .error e => .error e
  | .ok (files, wr) => .ok (runDetectors detect files wr)

/-- ScanDirectory from the legacy scanner.go: `scanFile` is its per-file
`ScanFile` (returning `none` on a read or parse error); a failing file is
skipped and the walk continues, collecting the other files' issues. -/
def ScanDirectoryLegacy (scanFile : String → Option (List String))
    (paths : List String) : List String :=
  paths.foldl
    (fun acc p =>
      match scanFile p with
      | some issues => acc ++ issues
      | none => acc)
    []

/-- Queue item of CallPathTo (`qitem` in workflow_registry.go). -/
structure QItem where
  name : String
  path : List String
deriving DecidableEq, Repr

/-- Body of CallPathTo's callee loop: skip activity callees, skip already
seen callees, otherwise mark seen and enqueue with the extended path. -/
def enqueueStep (wr : WorkflowRegistry) (cur : QItem)
    (acc : List QItem × List String) (callee : String) : List QItem × List String :=
  if wr.ActivityFuncs.contains callee then acc
  else if acc.2.contains callee then acc
  else (acc.1 ++ [⟨callee, cur.path ++ [callee]⟩], callee :: acc.2)

/-- CallPathTo's seeding loop: every workflow function enters the queue
with the one-element path and is marked seen, in iteration order. -/
def seedQueue (wfs : List String) : List QItem × List String :=
  wfs.foldl (fun acc wf => (acc.1 ++ [⟨wf, [wf]⟩], wf :: acc.2)) ([], [])

/-- Main loop of CallPathTo, fuel-indexed: pop the front item, return its
path when it is the target, otherwise push its unseen non-activity
callees and continue; the empty list is Go's `nil` result. -/
def callPathAux (wr : WorkflowRegistry) (target : String) :
    Nat → List QItem → List String → List String
  | 0, _, _ => []
  | _ + 1, [], _ => []
  | fuel + 1, cur :: rest, seen =>
    if cur.name == target then cur.path
    else
      let st := (graphLookup wr.CallGraph cur.name).foldl (enqueueStep wr cur) (rest, seen)
      callPathAux wr target fuel st.1 st.2

/-- Fuel bound for CallPathTo: one pop per seed plus one per callee
occurrence, plus slack. -/
def callPathFuel (wr : WorkflowRegistry) : Nat :=
  wr.WorkflowFuncs.length + ((wr.CallGraph.map (fun e => e.2)).flatten).length + 1

/-- CallPathTo from workflow_registry.go: breadth-first search seeded
from every workflow function in iteration order. -/
def CallPathTo (wr : WorkflowRegistry) (target : String) : List String :=
  let st := seedQueue wr.WorkflowFuncs
  callPathAux wr target (callPathFuel wr) st.1 st.2

/-! ### State-transformer views of the pass-2 queries.

The Go query methods receive the registry by pointer; mutation would be
an assignment to `wr.WorkflowFuncs` / `wr.ActivityFuncs` / `wr.CallGraph`
or a write through one of those maps.  The method bodies only read those
fields and write function-local maps and slices (`visited`, `seen`,
`reach`, the queue, the copied paths), so their state-passing embedding
returns the registry exactly as received. -/

/-- IsWorkflowReachable as a state transformer over the registry. -/
def IsWorkflowReachableS (wr : WorkflowRegistry) (n : String) : Bool × WorkflowRegistry :=
  (IsWorkflowReachable wr n, wr)

/-- CallPathTo as a state transformer over the registry. -/
def CallPathToS (wr : WorkflowRegistry) (target : String) : List String × WorkflowRegistry :=
  (CallPathTo wr target, wr)

/-- ReachableFromWorkflows as a state transformer over the registry. -/
def ReachableFromWorkflowsS (wr : WorkflowRegistry) : List String × WorkflowRegistry :=
  (ReachableFromWorkflows wr, wr)

/-! ### The specification's reachability relation -/

/-- Modelled from the spec (§4.4): a name is workflow-reachable when it is
itself workflow-classified, or reachable by following outbound call-graph
edges from a workflow-classified node without ever traversing an edge
into an activity-classified node.  This is the specification-side
relation the code's `IsWorkflowReachable` is compared against. -/
inductive SpecWorkflowReachable (wr : WorkflowRegistry) : String → Prop
  | base (w : String) (hw : w ∈ wr.WorkflowFuncs) : SpecWorkflowReachable wr w
  | step (a b : String) (ha : SpecWorkflowReachable wr a)
      (hb : b ∈ graphLookup wr.CallGraph a)
      (hact : b ∉ wr.ActivityFuncs) : SpecWorkflowReachable wr b

/-! ### Measures for the traversal fuels -/

/-- Every callee occurrence stored in the call graph, in storage order. -/
def allCallees (g : List (String × List String)) : List String :=
  (g.map (fun e => e.2)).flatten

/-- Number of distinct call-graph callees not yet marked seen. -/
def unseenCount (wr : WorkflowRegistry) (seen : List String) : Nat :=
  ((allCallees wr.CallGraph).toFinset \ seen.toFinset).card

/-- Variant of the breadth-first loop of `CallPathTo`: queue length plus
the number of callees that can still be enqueued.  Each loop iteration
decreases it by exactly one. -/
def phiQ (wr : WorkflowRegistry) (q : List QItem) (seen : List String) : Nat :=
  q.length + unseenCount wr seen

/-! ### Concrete registries used as failing inputs -/

/-- Call graph `W → H1 → H2` with `W` workflow-classified and nothing
activity-classified (spec Scenario A without the final disallowed call). -/
def chainRegistry : WorkflowRegistry := ⟨["W"], [], [("W", ["H1"]), ("H1", ["H2"])]⟩

/-- Call graph `W → A` with `W` workflow-classified and `A`
activity-classified. -/
def actRegistry : WorkflowRegistry := ⟨["W"], ["A"], [("W", ["A"])]⟩

/-- Cyclic call graph `F1 → F2 → F1` with `F1` workflow-classified. -/
def cycRegistry : WorkflowRegistry := ⟨["F1"], [], [("F1", ["F2"]), ("F2", ["F1"])]⟩

/-- Two registries with permuted workflow-set iteration order but
identical set contents, and identical activity sets and call graphs. -/
def seedRegA : WorkflowRegistry := ⟨["W1", "W2"], [], [("W1", ["t"]), ("W2", ["t"])]⟩

/-- Same contents as `seedRegA`, opposite workflow-set iteration order. -/
def seedRegB : WorkflowRegistry := ⟨["W2", "W1"], [], [("W1", ["t"]), ("W2", ["t"])]⟩

/-! ### Helper lemmas -/

/-- Boolean membership agrees with propositional membership. -/
lemma contains_true_iff (l : List String) (x : String) : l.contains x = true ↔ x ∈ l := by
  simp [List.contains]

/-- A visited target makes `isReachableFrom` answer false immediately,
whatever the fuel and the sources. -/
lemma isReachableFrom_visited (wr : WorkflowRegistry) (fuel : Nat) (t : String)
    (src vis : List String) (h : vis.contains t = true) :
    isReachableFrom wr fuel t src vis = false := by
  cases fuel with
  | zero => rfl
  | succ n =>
    unfold isReachableFrom
    rw [if_pos h]

/-- One unfolding of `isReachableFrom` from an empty visited set: because
the Go code marks the *target* visited before recursing, the recursive
call always fails, and the whole query reduces to the direct-callee
check, independently of the (positive) fuel. -/
lemma isReachableFrom_succ (wr : WorkflowRegistry) (fuel : Nat) (t : String)
    (src : List String) :
    isReachableFrom wr (fuel + 1) t src [] =
      src.any (fun s => (graphLookup wr.CallGraph s).contains t) := by
  unfold isReachableFrom
  rw [if_neg (by simp : ¬(([] : List String).contains t = true))]
  cases hany : src.any (fun s => (graphLookup wr.CallGraph s).contains t) with
  | true => rfl
  | false =>
    rw [if_neg (by simp [hany])]
    have hrec : ∀ nl : List String,
        (if nl.isEmpty = true then false else isReachableFrom wr fuel t nl [t]) = false := by
      intro nl
      split
      · rfl
      · exact isReachableFrom_visited wr fuel t nl [t] (by simp [contains_true_iff])
    exact hrec _

/-- Closed form of the code's `IsWorkflowReachable`: direct membership in
the workflow set, or being a direct callee of some workflow function.
No deeper node is ever reported reachable. -/
lemma isWorkflowReachable_eq (wr : WorkflowRegistry) (n : String) :
    IsWorkflowReachable wr n =
      (wr.WorkflowFuncs.contains n ||
        wr.WorkflowFuncs.any (fun w => (graphLookup wr.CallGraph w).contains n)) := by
  unfold IsWorkflowReachable
  cases h : wr.WorkflowFuncs.contains n with
  | true => simp [h]
  | false =>
    have : reachFuel wr =
        (wr.WorkflowFuncs.length + ((wr.CallGraph.map (fun e => e.2)).flatten).length + 1) + 1 := rfl
    rw [this, isReachableFrom_succ]
    simp [h]

/-- A callee returned by a graph lookup occurs in `allCallees`. -/
lemma graphLookup_subset_allCallees (g : List (String × List String)) (k c : String)
    (h : c ∈ graphLookup g k) : c ∈ allCallees g := by
  unfold graphLookup at h
  unfold allCallees
  cases hf : g.find? (fun e => e.1 == k) with
  | none => rw [hf] at h; cases h
  | some e =>
    rw [hf] at h
    have he : e ∈ g := List.mem_of_find?_eq_some hf
    exact List.mem_flatten.mpr ⟨e.2, List.mem_map_of_mem _ he, h⟩

/-- Marking an unseen callee seen decreases the unseen count by one. -/
lemma unseenCount_cons (wr : WorkflowRegistry) (seen : List String) (c : String)
    (hc : c ∈ allCallees wr.CallGraph) (hn : seen.contains c = false) :
    unseenCount wr (c :: seen) + 1 = unseenCount wr seen := by
  unfold unseenCount
  rw [List.toFinset_cons, Finset.sdiff_insert]
  apply Finset.card_erase_add_one
  rw [Finset.mem_sdiff]
  refine ⟨List.mem_toFinset.mpr hc, ?_⟩
  intro hmem
  rw [List.mem_toFinset, ← contains_true_iff] at hmem
  rw [hn] at hmem
  cases hmem

/-- The callee fold of one `CallPathTo` iteration preserves queue length
plus unseen count: every pushed item marks a fresh callee seen. -/
lemma phiFold (wr : WorkflowRegistry) (cur : QItem) :
    ∀ (adj : List String) (acc : List QItem × List String),
      (∀ c ∈ adj, c ∈ allCallees wr.CallGraph) →
      (adj.foldl (enqueueStep wr cur) acc).1.length
          + unseenCount wr (adj.foldl (enqueueStep wr cur) acc).2
        = acc.1.length + unseenCount wr acc.2
  | [], _, _ => rfl
  | c :: adj, acc, hsub => by
    rw [List.foldl_cons,
      phiFold wr cur adj (enqueueStep wr cur acc c)
        (fun x hx => hsub x (List.mem_cons_of_mem c hx))]
    unfold enqueueStep
    split
    · rfl
    · split
      · rfl
      · rename_i hact hseen
        simp only [List.length_append, List.length_cons, List.length_nil]
        have hc : c ∈ allCallees wr.CallGraph := hsub c (List.mem_cons_self c adj)
        have hn : acc.2.contains c = false := by
          rw [Bool.not_eq_true] at hseen
          exact hseen
        have hdec := unseenCount_cons wr acc.2 c hc hn
        omega

/-- Extra fuel does not change the breadth-first loop's answer once the
fuel reaches the variant `phiQ`. -/
lemma callPathAux_stable (wr : WorkflowRegistry) (t : String) :
    ∀ (fuel : Nat) (q : List QItem) (seen : List String),
      phiQ wr q seen ≤ fuel →
      callPathAux wr t fuel q seen = callPathAux wr t (fuel + 1) q seen
  | 0, q, seen, h => by
    have hq : q = [] := by
      have hl : q.length = 0 := by
        unfold phiQ at h
        omega
      exact List.length_eq_zero.mp hl
    subst hq
    rfl
  | fuel + 1, [], seen, _ => rfl
  | fuel + 1, cur :: rest, seen, h => by
    unfold callPathAux
    split
    · rfl
    · apply callPathAux_stable wr t fuel
      have hsub : ∀ c ∈ graphLookup wr.CallGraph cur.name, c ∈ allCallees wr.CallGraph :=
        fun c hc => graphLookup_subset_allCallees _ _ _ hc
      have hstep := phiFold wr cur (graphLookup wr.CallGraph cur.name) (rest, seen) hsub
      unfold phiQ at h ⊢
      simp only [List.length_cons] at h
      rw [hstep]
      show rest.length + unseenCount wr seen ≤ fuel
      omega

/-- Fuel monotonicity: any amount of extra fuel is harmless. -/
lemma callPathAux_add (wr : WorkflowRegistry) (t : String) (q : List QItem)
    (seen : List String) (fuel : Nat) (h : phiQ wr q seen ≤ fuel) :
    ∀ k : Nat, callPathAux wr t fuel q seen = callPathAux wr t (fuel + k) q seen := by
  intro k
  induction k with
  | zero => rfl
  | succ k ih =>
    rw [ih, show fuel + (k + 1) = (fuel + k) + 1 from rfl]
    exact callPathAux_stable wr t (fuel + k) q seen (le_trans h (Nat.le_add_right fuel k))

/-- Any two sufficient fuels give the same answer. -/
lemma callPathAux_eq_of_le (wr : WorkflowRegistry) (t : String) (q : List QItem)
    (seen : List String) (f1 f2 : Nat) (h1 : phiQ wr q seen ≤ f1)
    (h2 : phiQ wr q seen ≤ f2) :
    callPathAux wr t f1 q seen = callPathAux wr t f2 q seen := by
  rcases Nat.le_total f1 f2 with h | h
  · have hk := callPathAux_add wr t q seen f1 h1 (f2 - f1)
    rwa [Nat.add_sub_cancel' h] at hk
  · have hk := callPathAux_add wr t q seen f2 h2 (f1 - f2)
    rw [Nat.add_sub_cancel' h] at hk
    exact hk.symm

/-- The seeding fold enqueues one item per workflow function. -/
lemma seedFold_length :
    ∀ (wfs : List String) (acc : List QItem × List String),
      ((wfs.foldl (fun acc wf => (acc.1 ++ [⟨wf, [wf]⟩], wf :: acc.2)) acc).1).length
        = acc.1.length + wfs.length
  | [], _ => by simp
  | wf :: wfs, acc => by
    rw [List.foldl_cons, seedFold_length wfs _]
    simp only [List.length_append, List.length_cons, List.length_nil]
    omega

/-- The unseen count never exceeds the number of callee occurrences. -/
lemma unseenCount_le (wr : WorkflowRegistry) (seen : List String) :
    unseenCount wr seen ≤ (allCallees wr.CallGraph).length := by
  unfold unseenCount
  calc ((allCallees wr.CallGraph).toFinset \ seen.toFinset).card
      ≤ (allCallees wr.CallGraph).toFinset.card := Finset.card_le_card Finset.sdiff_subset
    _ ≤ (allCallees wr.CallGraph).length := List.toFinset_card_le _

/-- The fuel `CallPathTo` runs with dominates the loop variant at the
seeded start configuration. -/
lemma phiQ_init_le (wr : WorkflowRegistry) :
    phiQ wr (seedQueue wr.WorkflowFuncs).1 (seedQueue wr.WorkflowFuncs).2 ≤ callPathFuel wr := by
  have h1 : (seedQueue wr.WorkflowFuncs).1.length = wr.WorkflowFuncs.length := by
    have hs := seedFold_length wr.WorkflowFuncs ([], [])
    simpa [seedQueue] using hs
  have h2 := unseenCount_le wr (seedQueue wr.WorkflowFuncs).2
  have h3 : callPathFuel wr
      = wr.WorkflowFuncs.length + (allCallees wr.CallGraph).length + 1 := rfl
  unfold phiQ
  omega

/-- C8: both queries terminate with a finite answer on every finite call
graph, cyclic ones included.  For the breadth-first `CallPathTo` loop
this is expressed as fuel stability: once the fuel reaches the bound
`callPathFuel` (one step per seed plus one per callee occurrence), the
answer no longer depends on it, and equals what `CallPathTo` returns —
i.e. the unbounded Go loop stops within that many iterations.  For
`IsWorkflowReachable`, the recursion of `isReachableFrom` stops after at
most two levels for any positive fuel (the Go code marks the target
visited up front), so its answer is independent of the fuel as well. -/
theorem c8_queries_terminate (wr : WorkflowRegistry) (target : String)
    (f1 f2 g1 g2 : Nat) (h1 : callPathFuel wr ≤ f1) (h2 : callPathFuel wr ≤ f2) :
    callPathAux wr target f1 (seedQueue wr.WorkflowFuncs).1 (seedQueue wr.WorkflowFuncs).2
      = callPathAux wr target f2 (seedQueue wr.WorkflowFuncs).1 (seedQueue wr.WorkflowFuncs).2 ∧
    callPathAux wr target f1 (seedQueue wr.WorkflowFuncs).1 (seedQueue wr.WorkflowFuncs).2
      = CallPathTo wr target ∧
    isReachableFrom wr (g1 + 1) target wr.WorkflowFuncs []
      = isReachableFrom wr (g2 + 1) target wr.WorkflowFuncs [] := by
  have hp := phiQ_init_le wr
  refine ⟨?_, ?_, ?_⟩
  · exact callPathAux_eq_of_le wr target _ _ f1 f2 (le_trans hp h1) (le_trans hp h2)
  · unfold CallPathTo
    exact callPathAux_eq_of_le wr target _ _ f1 _ (le_trans hp h1) hp
  · rw [isReachableFrom_succ, isReachableFrom_succ]

/-- C8 witness: both hypotheses and the conclusion instantiated on the
cyclic graph `F1 → F2 → F1` at concrete fuels. -/
theorem c8_queries_terminate_witness :
    (callPathFuel cycRegistry ≤ 4 ∧ callPathFuel cycRegistry ≤ 9) ∧
    (callPathAux cycRegistry "F2" 4 (seedQueue cycRegistry.WorkflowFuncs).1
        (seedQueue cycRegistry.WorkflowFuncs).2
      = callPathAux cycRegistry "F2" 9 (seedQueue cycRegistry.WorkflowFuncs).1
        (seedQueue cycRegistry.WorkflowFuncs).2 ∧
    callPathAux cycRegistry "F2" 4 (seedQueue cycRegistry.WorkflowFuncs).1
        (seedQueue cycRegistry.WorkflowFuncs).2
      = CallPathTo cycRegistry "F2" ∧
    isReachableFrom cycRegistry (0 + 1) "F2" cycRegistry.WorkflowFuncs []
      = isReachableFrom cycRegistry (7 + 1) "F2" cycRegistry.WorkflowFuncs []) :=
  ⟨⟨by decide, by decide⟩,
    c8_queries_terminate cycRegistry "F2" 4 9 0 7 (by decide) (by decide)⟩

/-- C1: the spec's closure property fails on the code.  In `W → H1 → H2`
the code reports `H1` workflow-reachable, `H2` is a callee of `H1` and is
not activity-classified, yet the code reports `H2` not reachable — the
`visited[target]` check in `isReachableFrom` aborts the recursion at
depth two.  The code's own `ReachableFromWorkflows` contradicts it by
listing `H2` as reachable. -/
theorem c1_closure_fails_at_depth_two :
    IsWorkflowReachable chainRegistry "H1" = true ∧
    (graphLookup chainRegistry.CallGraph "H1").contains "H2" = true ∧
    chainRegistry.ActivityFuncs.contains "H2" = false ∧
    IsWorkflowReachable chainRegistry "H2" = false ∧
    (ReachableFromWorkflows chainRegistry).contains "H2" = true := by decide

/-- C2: the code's `IsWorkflowReachable` disagrees with the spec's
reachability relation in both directions: `H2` in `W → H1 → H2` is
spec-reachable but the code answers false, and the direct activity
callee `A` in `W → A` is not spec-reachable (the entering edge is
pruned) but the code answers true (it never consults `ActivityFuncs`). -/
theorem c2_code_diverges_from_spec_reachability :
    (SpecWorkflowReachable chainRegistry "H2" ∧
      IsWorkflowReachable chainRegistry "H2" = false) ∧
    (¬ SpecWorkflowReachable actRegistry "A" ∧
      IsWorkflowReachable actRegistry "A" = true) := by
  refine ⟨⟨?_, by decide⟩, ⟨?_, by decide⟩⟩
  · have h1 : SpecWorkflowReachable chainRegistry "W" := .base "W" (by decide)
    have h2 : SpecWorkflowReachable chainRegistry "H1" :=
      .step "W" "H1" h1 (by decide) (by decide)
    exact .step "H1" "H2" h2 (by decide) (by decide)
  · intro h
    cases h with
    | base _ hw => exact absurd hw (by decide)
    | step a b ha hb hact => exact hact (by decide)

/-- C3: `CallPathTo` and `IsWorkflowReachable` disagree, against the
claimed equivalence: for `H2` in `W → H1 → H2` the code's reachability
query answers false yet `CallPathTo` returns the non-empty path
`[W, H1, H2]`; for the direct activity callee `A` the reachability query
answers true yet `CallPathTo` returns the empty result. -/
theorem c3_callpath_disagrees_with_reachability :
    (IsWorkflowReachable chainRegistry "H2" = false ∧
      CallPathTo chainRegistry "H2" = ["W", "H1", "H2"]) ∧
    (IsWorkflowReachable actRegistry "A" = true ∧
      CallPathTo actRegistry "A" = []) := by decide

/-- C7: the replace-directive lookup returns the new path of the first
directive whose old path equals the import path or "/"-prefixes it, and
`(false, "")` when no directive matches. -/
theorem c7_replace_first_match (m : ModuleInfo) (p : String) :
    IsReplacedPackage m p =
      match m.Replaces.find?
          (fun rep => p == rep.OldPath || strHasPre p (rep.OldPath ++ "/")) with
      | some rep => (true, rep.NewPath)
      | none => (false, "") := by
  unfold IsReplacedPackage
  induction m.Replaces with
  | nil => rfl
  | cons rep rest ih =>
    by_cases h : (p == rep.OldPath || strHasPre p (rep.OldPath ++ "/")) = true
    · simp [isReplacedGo, List.find?, h]
    · rw [Bool.not_eq_true] at h
      simp [isReplacedGo, List.find?, h, ih]

/-- The enqueue step reads the registry only through activity-set
membership. -/
lemma enqueueStep_ext (r1 r2 : WorkflowRegistry) (cur : QItem)
    (hact : ∀ x, r1.ActivityFuncs.contains x = r2.ActivityFuncs.contains x) :
    enqueueStep r1 cur = enqueueStep r2 cur := by
  funext acc c
  unfold enqueueStep
  rw [hact c]

/-- The breadth-first loop reads the registry only through activity-set
membership and the call graph. -/
lemma callPathAux_ext (r1 r2 : WorkflowRegistry) (t : String)
    (hact : ∀ x, r1.ActivityFuncs.contains x = r2.ActivityFuncs.contains x)
    (hcg : r1.CallGraph = r2.CallGraph) :
    ∀ (fuel : Nat) (q : List QItem) (seen : List String),
      callPathAux r1 t fuel q seen = callPathAux r2 t fuel q seen
  | 0, _, _ => rfl
  | _ + 1, [], _ => rfl
  | fuel + 1, cur :: rest, seen => by
    unfold callPathAux
    split
    · rfl
    · rw [hcg, enqueueStep_ext r1 r2 cur hact]
      exact callPathAux_ext r1 r2 t hact hcg fuel _ _

/-- C4 counterexample: two registries whose workflow sets hold the same
contents (a permutation: Go map contents do not fix iteration order),
whose activity sets and call graphs are identical — yet `CallPathTo`
returns different paths, so the output is not a function of the map
contents and the edge order alone. -/
theorem c4_path_flaps_with_seed_order :
    seedRegA.WorkflowFuncs.Perm seedRegB.WorkflowFuncs ∧
    seedRegA.ActivityFuncs = seedRegB.ActivityFuncs ∧
    seedRegA.CallGraph = seedRegB.CallGraph ∧
    CallPathTo seedRegA "t" = ["W1", "t"] ∧
    CallPathTo seedRegB "t" = ["W2", "t"] ∧
    CallPathTo seedRegA "t" ≠ CallPathTo seedRegB "t" := by
  refine ⟨List.Perm.swap "W2" "W1" [], rfl, rfl, by decide, by decide, by decide⟩

/-- C4 (amended): with the seed iteration order over `WorkflowFuncs`
also fixed — same seed list, same activity membership, same call graph —
`CallPathTo` is a deterministic function of the registry state. -/
theorem c4_callpath_deterministic (r1 r2 : WorkflowRegistry) (t : String)
    (hwf : r1.WorkflowFuncs = r2.WorkflowFuncs)
    (hact : ∀ x, r1.ActivityFuncs.contains x = r2.ActivityFuncs.contains x)
    (hcg : r1.CallGraph = r2.CallGraph) :
    CallPathTo r1 t = CallPathTo r2 t := by
  unfold CallPathTo
  have hfuel : callPathFuel r1 = callPathFuel r2 := by
    unfold callPathFuel
    rw [hwf, hcg]
  rw [hwf, hfuel]
  exact callPathAux_ext r1 r2 t hact hcg _ _ _

/-- C4 witness: the determinism theorem applied at a concrete registry,
with every hypothesis discharged. -/
theorem c4_callpath_deterministic_witness :
    CallPathTo seedRegA "t" = CallPathTo seedRegA "t" :=
  c4_callpath_deterministic seedRegA seedRegA "t" rfl (fun _ => rfl) rfl

/-- C5: a parse failure does not merely drop the failing file — the
two-pass scan aborts the whole run.  `addFile`'s error propagates out of
`filepath.Walk`, so `ScanDirectory` returns the error and none of the
other files' issues, for every parser payload and detector; the legacy
single-pass `ScanDirectory` shows the claimed skip-and-continue
behaviour, returning the two good files' issues. -/
theorem c5_parse_failure_aborts_walk {α : Type}
    (process : WorkflowRegistry → α → WorkflowRegistry)
    (detect : WorkflowRegistry → String × α → List String) (a c : α) :
    ScanDirectory process detect [("a.go", some a), ("b.go", none), ("c.go", some c)]
      = Except.error "b.go" ∧
    ScanDirectoryLegacy (fun p => if p == "b.go" then none else some [p])
      ["a.go", "b.go", "c.go"] = ["a.go", "c.go"] :=
  ⟨rfl, rfl⟩

/-- C6 counterexample: with the manifest `example.com/project` rooted at
`root`, a file in `root/sub/pkg` whose declared package is `main`
resolves to the bare module path, not to
`example.com/project/sub/pkg` as the unconditional claim requires. -/
theorem c6_main_package_counterexample :
    computePackagePath
        ⟨some ⟨"example.com/project", "", [], [], "root"⟩, "root"⟩
        "root/sub/pkg/file.go" (some "main")
      = "example.com/project" ∧
    "example.com/project" ≠ "example.com/project/sub/pkg" := by
  refine ⟨rfl, by decide⟩

/-- C6 (amended): for any module path `M`, a file in `<root>/sub/pkg`
whose path does not contain "testdata" and whose declared package is not
`main` resolves to `M ++ "/sub/pkg"`; a file in the manifest root
resolves to exactly `M`; and a file declaring package `main` resolves to
exactly `M` regardless of its directory. -/
theorem c6_manifest_resolution (M : String) :
    computePackagePath ⟨some ⟨M, "", [], [], "root"⟩, "root"⟩
        "root/sub/pkg/file.go" (some "pkg") = M ++ "/sub/pkg" ∧
    computePackagePath ⟨some ⟨M, "", [], [], "root"⟩, "root"⟩
        "root/file.go" (some "pkg") = M ∧
    computePackagePath ⟨some ⟨M, "", [], [], "root"⟩, "root"⟩
        "root/sub/pkg/file.go" (some "main") = M := by
  refine ⟨?_, rfl, rfl⟩
  show M ++ "/" ++ "sub/pkg" = M ++ "/sub/pkg"
  rw [String.append_assoc]
  congr 1

/-- C9 counterexample: two files whose resolved package paths differ
(the fallback resolver keeps a directory's trailing blank) but whose
canonical names for the same function coincide, because `canonical`
trims the path before joining. -/
theorem c9_canonical_collision :
    computePackagePath ⟨none, "base"⟩ "base/sub /x.go" (some "p") ≠
      computePackagePath ⟨none, "base"⟩ "base/sub/x.go" (some "p") ∧
    canonical (computePackagePath ⟨none, "base"⟩ "base/sub /x.go" (some "p")) "F" =
      canonical (computePackagePath ⟨none, "base"⟩ "base/sub/x.go" (some "p")) "F" := by
  refine ⟨by decide, by decide⟩

/-- C9 (amended): for resolved package paths that are non-empty and free
of leading and trailing whitespace, canonical naming is collision-free:
two same-named functions in different packages get distinct canonical
names. -/
theorem c9_canonical_injective (p1 p2 f : String)
    (h1 : strTrimSpace p1 = p1) (h2 : strTrimSpace p2 = p2)
    (n1 : p1 ≠ "") (n2 : p2 ≠ "") (hne : p1 ≠ p2) :
    canonical p1 f ≠ canonical p2 f := by
  unfold canonical
  rw [h1, h2]
  show (if (p1 == "") = true then "local" else p1) ++ "." ++ f ≠
    (if (p2 == "") = true then "local" else p2) ++ "." ++ f
  rw [if_neg (by simpa using n1), if_neg (by simpa using n2)]
  intro h
  apply hne
  have hd : p1.data ++ ("." ++ f).data = p2.data ++ ("." ++ f).data := by
    have hc := congrArg String.data h
    simpa [String.data_append, List.append_assoc] using hc
  exact congrArg String.mk (List.append_cancel_right hd)

/-- C9 witness: the injectivity theorem applied to two concrete clean
paths. -/
theorem c9_canonical_injective_witness :
    (strTrimSpace "a" = "a" ∧ "a" ≠ "b") ∧ canonical "a" "f" ≠ canonical "b" "f" :=
  ⟨⟨by decide, by decide⟩,
    c9_canonical_injective "a" "b" "f" (by decide) (by decide) (by decide) (by decide)
      (by decide)⟩

/-- C10: the pass-2 queries leave every registry component unchanged:
workflow set, activity set and call graph are exactly as before the
call. -/
theorem c10_queries_preserve_registry (wr : WorkflowRegistry) (n t : String) :
    (IsWorkflowReachableS wr n).2.WorkflowFuncs = wr.WorkflowFuncs ∧
    (IsWorkflowReachableS wr n).2.ActivityFuncs = wr.ActivityFuncs ∧
    (IsWorkflowReachableS wr n).2.CallGraph = wr.CallGraph ∧
    (CallPathToS wr t).2.WorkflowFuncs = wr.WorkflowFuncs ∧
    (CallPathToS wr t).2.ActivityFuncs = wr.ActivityFuncs ∧
    (CallPathToS wr t).2.CallGraph = wr.CallGraph ∧
    (ReachableFromWorkflowsS wr).2.WorkflowFuncs = wr.WorkflowFuncs ∧
    (ReachableFromWorkflowsS wr).2.ActivityFuncs = wr.ActivityFuncs ∧
    (ReachableFromWorkflowsS wr).2.CallGraph = wr.CallGraph :=
  ⟨rfl, rfl, rfl, rfl, rfl, rfl, rfl, rfl, rfl⟩

end WfLint
